import Mathlib

/-!
# maintenance-exporter: the maintenance window entity

A shallow embedding of `main.go`: the `MaintenanceWindow` type and its methods,
`NewMaintenanceWindow`, and the startup sequence of `main`, followed by theorems
about them.

Modelling conventions.
* A Go `map[string]string` value is either `nil` or an allocated table; a table is the
  list of its entries with pairwise distinct keys. The order in which `range` visits the
  entries is not fixed by the language, so every loop over a map takes a `RangeOrder`,
  an arbitrary choice of a permutation of the entries.
* A run-time panic (store into a nil map, nil pointer dereference) is an explicit
  outcome, `Outcome.panicked`.
* `time.Duration` is an integer number of nanoseconds.
* `gaugeValue` is a `float64` in the source. The only values ever stored in it are the
  constants `float64(0)` and `float64(1)`, which are represented here by the integers
  `0` and `1`.
* The collaborators from other packages are explicit: the metric registry is the list of
  the names registered with `metrics.NewGauge` together with the function `gaugeAccepted`
  that tells whether the registry takes a name or panics, the scheduler is a job table
  together with the function `cronDo` standing for `s.Cron(c).Do(m.Task)`, and
  `time.ParseDuration` is the function `parseDuration`. The three functions are fields of
  `Env`, so that the theorems hold for every registry, every scheduler and every duration
  parser. Log output is not modelled.
-/

namespace MaintenanceExporter

/-! ## Go values -/

/-- The two ways a Go call can end: it returns, or a run-time panic unwinds it. -/
inductive Outcome (α : Type) where
  | returned (a : α)
  | panicked (msg : String)
  deriving DecidableEq, Repr

/-- Entries of an allocated Go map from strings to strings: the keys are pairwise distinct. -/
structure Table where
  entries : List (String × String)
  nodup : (entries.map Prod.fst).Nodup

instance : DecidableEq Table := fun a b =>
  decidable_of_iff (a.entries = b.entries)
    ⟨fun h => by cases a; cases b; cases h; rfl, fun h => by rw [h]⟩

/-- A value of the Go type `map[string]string`: `none` is the nil map. -/
abbrev GoMap := Option Table

/-- Reading `t[k]`: the value stored under `k`, if there is one. -/
def Table.lookup (t : Table) (k : String) : Option String :=
  (t.entries.find? (fun e => e.1 == k)).map Prod.snd

/-- The Go built-in `len` on a map: the number of entries, `0` for the nil map. -/
def GoMap.len : GoMap → Nat
  | none => 0
  | some t => t.entries.length

/-- The store `t[k] = v` on an allocated map: the entry for `k` is replaced or added, every
other entry is kept. The position of an entry in the list carries no meaning: loops visit
the entries through a `RangeOrder`. -/
def Table.assign (t : Table) (k v : String) : Table where
  entries := (k, v) :: t.entries.filter (fun e => e.1 != k)
  nodup := by
    rw [List.map_cons, List.nodup_cons]
    constructor
    · intro hk
      obtain ⟨e, he, hek⟩ := List.mem_map.1 hk
      have := (List.mem_filter.1 he).2
      simp at this
      exact this hek
    · exact ((List.filter_sublist t.entries).map Prod.fst).nodup t.nodup

/-- The Go statement `l[k] = v`. A store into the nil map panics
("assignment to entry in nil map"); `none` stands for that panic. -/
def mapassign (l : GoMap) (k v : String) : Option Table :=
  match l with
  | none => none
  | some t => some (t.assign k v)

/-- One run of `for k, v := range l`: the entries of the map in the order in which the loop
visits them. Go leaves the order unspecified, so it is a parameter. -/
structure RangeOrder where
  visit : Table → List (String × String)
  perm : ∀ t, (visit t).Perm t.entries

/-- The iteration that visits the entries in stored order. -/
def RangeOrder.stored : RangeOrder := ⟨fun t => t.entries, fun _ => List.Perm.refl _⟩

/-- The iteration that visits the entries in reverse stored order. -/
def RangeOrder.reversed : RangeOrder := ⟨fun t => t.entries.reverse, fun _ => List.reverse_perm _⟩

/-! ## Collaborators -/

/-- `time.Duration`: a signed count of nanoseconds. -/
abbrev Duration := Int

/-- A Go `error` value. -/
inductive Error where
  | invalidDuration (orig : String)
  | missingUnit (orig : String)
  | unknownUnit (unit orig : String)
  | scheduling (msg : String)
  deriving DecidableEq, Repr

/-- A job record of the scheduler (`gocron.Job`). -/
structure Job where
  cron : String
  deriving DecidableEq, Repr

/-- What `s.Cron(c).Do(m.Task)` hands back: a nil error together with the job that the
scheduler has registered, or a non-nil error together with whatever job pointer the
scheduler returns alongside it (possibly nil). -/
inductive DoResult where
  | ok (job : Job)
  | failed (job : Option Job) (err : Error)
  deriving DecidableEq, Repr

/-- The functions of other packages that `NewMaintenanceWindow` calls. -/
structure Env where
  /-- `time.ParseDuration`. -/
  parseDuration : String → Except Error Duration
  /-- Whether `metrics.NewGauge` takes a name, given the names registered so far; when it
  does not, it panics. -/
  gaugeAccepted : List String → String → Bool
  /-- `s.Cron(c).Do(m.Task)`, as a function of the job table and the cron expression: the
  result and the job table afterwards. -/
  cronDo : List Job → String → DoResult × List Job

/-- A gauge of the metric registry (`metrics.Gauge`), identified by the name it was
registered under. -/
structure Gauge where
  name : String
  deriving DecidableEq, Repr

/-- The state outside the window: the names registered with `metrics.NewGauge`, oldest first,
and the job table of the scheduler. -/
structure World where
  gauges : List String
  jobs : List Job
  deriving DecidableEq, Repr

/-- `metrics.NewGauge(name, f)`: registers a gauge under `name` when the registry takes the
name; `none` stands for the panic of the registry when it does not. -/
def NewGauge (env : Env) (world : World) (name : String) : Option (Gauge × World) :=
  if env.gaugeAccepted world.gauges name then
    some (⟨name⟩, { world with gauges := world.gauges ++ [name] })
  else none

/-! ## The duration parser of the Go standard library

`time.ParseDuration` (package `time`, file `format.go`) works on unsigned 64-bit integers
and accepts `[-+]?([0-9]*(\.[0-9]*)?[a-z]+)+`. The one floating-point step, the nanoseconds
contributed by the digits after a decimal point, is the parameter `fracNs` of the loop;
`fracNsFloat` computes it with the rounding of `float64`. -/

/-- The helper `leadingInt`: consumes the leading digits of `s` into `x`; `none` is the
overflow error. -/
def leadingInt : List Char → Nat → Option (Nat × List Char)
  | [], x => some (x, [])
  | c :: cs, x =>
    if c < '0' ∨ c > '9' then some (x, c :: cs)
    else if x > 2 ^ 63 / 10 then none
    else
      let x := x * 10 + c.toNat - 48
      if x > 2 ^ 63 then none else leadingInt cs x

/-- The helper `leadingFraction`: consumes the leading digits of `s`; the result is the
value `x` of the digits taken before overflow, the number `k` of those digits (the scale
is `10 ^ k`), and the rest of `s`. -/
def leadingFraction : List Char → Nat → Nat → Bool → Nat × Nat × List Char
  | [], x, k, _ => (x, k, [])
  | c :: cs, x, k, overflow =>
    if c < '0' ∨ c > '9' then (x, k, c :: cs)
    else if overflow then leadingFraction cs x k overflow
    else if x > (2 ^ 63 - 1) / 10 then leadingFraction cs x k true
    else
      let y := x * 10 + c.toNat - 48
      if y > 2 ^ 63 then leadingFraction cs x k true
      else leadingFraction cs y (k + 1) overflow

/-- The table `unitMap`: nanoseconds per unit. -/
def unitMap (u : String) : Option Nat :=
  if u = "ns" then some 1
  else if u = "us" then some 1000
  else if u = "µs" then some 1000
  else if u = "μs" then some 1000
  else if u = "ms" then some 1000000
  else if u = "s" then some 1000000000
  else if u = "m" then some 60000000000
  else if u = "h" then some 3600000000000
  else none

/-- The main loop of `time.ParseDuration`: `s` is what is left of the input and `d` the
nanoseconds accumulated so far. Every round consumes at least one character of `s`, so
`fuel` is the length of the input. -/
def parseDurationLoop (fracNs : Nat → Nat → Nat → Nat) (orig : String) :
    Nat → List Char → Nat → Except Error Nat
  | _, [], d => .ok d
  | 0, _ :: _, _ => .error (.invalidDuration orig)
  | fuel + 1, c :: cs, d =>
    if ¬ (c = '.' ∨ ('0' ≤ c ∧ c ≤ '9')) then .error (.invalidDuration orig)
    else
      match leadingInt (c :: cs) 0 with
      | none => .error (.invalidDuration orig)
      | some (v, s) =>
        let pre := decide ((c :: cs).length ≠ s.length)
        let (f, k, s, post) :=
          match s with
          | '.' :: s1 =>
            let (f, k, s2) := leadingFraction s1 0 0 false
            (f, k, s2, decide (s1.length ≠ s2.length))
          | _ => (0, 0, s, false)
        if !pre && !post then .error (.invalidDuration orig)
        else
          let u := s.takeWhile (fun c => ¬ (c = '.' ∨ ('0' ≤ c ∧ c ≤ '9')))
          let s := s.dropWhile (fun c => ¬ (c = '.' ∨ ('0' ≤ c ∧ c ≤ '9')))
          if u.length = 0 then .error (.missingUnit orig)
          else
            match unitMap (String.mk u) with
            | none => .error (.unknownUnit (String.mk u) orig)
            | some unit =>
              if v > 2 ^ 63 / unit then .error (.invalidDuration orig)
              else
                let v := v * unit
                let v := if f > 0 then (v + fracNs f unit k) % 2 ^ 64 else v
                if f > 0 ∧ v > 2 ^ 63 then .error (.invalidDuration orig)
                else
                  let d := (d + v) % 2 ^ 64
                  if d > 2 ^ 63 then .error (.invalidDuration orig)
                  else parseDurationLoop fracNs orig fuel s d

/-- The function `time.ParseDuration`. -/
def ParseDuration (fracNs : Nat → Nat → Nat → Nat) (orig : String) : Except Error Duration :=
  let (neg, s) :=
    match orig.data with
    | '-' :: s => (true, s)
    | '+' :: s => (false, s)
    | s => (false, s)
  if s = ['0'] then .ok 0
  else if s = [] then .error (.invalidDuration orig)
  else
    match parseDurationLoop fracNs orig s.length s 0 with
    | .error e => .error e
    | .ok d =>
      if neg then .ok (-(d : Int))
      else if d > 2 ^ 63 - 1 then .error (.invalidDuration orig)
      else .ok (d : Int)

/-- A positive `float64` value `m * 2 ^ e`. -/
structure F64 where
  m : Nat
  e : Int
  deriving DecidableEq, Repr

/-- The `float64` nearest to the fraction `a / b` (both positive), ties going to the even
mantissa: the mantissa has 53 bits. Values outside the range of normal numbers do not occur
in `time.ParseDuration` and are not treated. -/
def roundF64 (a b : Nat) : F64 :=
  let e0 : Int := (Nat.log2 a : Int) - (Nat.log2 b : Int) - 52
  let scaled (e : Int) : Nat × Nat :=
    if 0 ≤ e then (a, b * 2 ^ e.toNat) else (a * 2 ^ (-e).toNat, b)
  let e : Int := if (scaled e0).1 / (scaled e0).2 < 2 ^ 52 then e0 - 1 else e0
  let (num, den) := scaled e
  let m := num / den
  let r := num % den
  if 2 * r > den ∨ (2 * r = den ∧ m % 2 = 1) then ⟨m + 1, e⟩ else ⟨m, e⟩

/-- The `float64` product of two positive `float64` values. -/
def F64.mul (x y : F64) : F64 :=
  let e := x.e + y.e
  if 0 ≤ e then roundF64 (x.m * y.m * 2 ^ e.toNat) 1 else roundF64 (x.m * y.m) (2 ^ (-e).toNat)

/-- The conversion `uint64(x)` of a positive `float64` value: the fraction is cut off. -/
def F64.toUint64 (x : F64) : Nat :=
  if 0 ≤ x.e then x.m * 2 ^ x.e.toNat else x.m / 2 ^ (-x.e).toNat

/-- The floating-point step of `time.ParseDuration`,
`uint64(float64(f) * (float64(unit) / scale))` with `scale` the `float64` value `10 ^ k`,
for `f > 0`. -/
def fracNsFloat (f unit k : Nat) : Nat :=
  ((roundF64 f 1).mul (roundF64 unit (10 ^ k))).toUint64

/-! ## The name check of the metric registry

`metrics.NewGauge` (package `github.com/VictoriaMetrics/metrics`) panics when the name does
not pass `validateMetric` and when a metric of that name is registered already. The check
is transcribed here for the environment `goEnv`; the theorems hold for every registry. A
version of the package that also refuses a line break in a name is not covered. -/

/-- The check `validateIdent`: the text matches `^[a-zA-Z_:.][a-zA-Z0-9_:.]*$`. -/
def validateIdent (s : List Char) : Bool :=
  match s with
  | [] => false
  | c :: cs =>
    (c.isAlpha || c = '_' || c = ':' || c = '.') &&
    cs.all (fun c => c.isAlpha || c.isDigit || c = '_' || c = ':' || c = '.')

/-- The scan for the quote that closes a label value: `run` counts the backslashes directly
before the current character, and a quote after an odd number of them does not close the
value. The result is what follows the closing quote; `none` when the value is not closed. -/
def closeValue : List Char → Nat → Option (List Char)
  | [], _ => none
  | c :: cs, run =>
    if c = '"' then (if run % 2 = 1 then closeValue cs 0 else some cs)
    else if c = '\\' then closeValue cs (run + 1)
    else closeValue cs 0

/-- The check `validateTags` on the text between the braces of a metric name. Every round
consumes at least one character, so `fuel` is the length of the text. -/
def validateTags : Nat → List Char → Bool
  | 0, _ => false
  | fuel + 1, s =>
    if ¬ s.contains '=' then false
    else
      let ident := s.takeWhile (fun c => c ≠ '=')
      let s := (s.dropWhile (fun c => c ≠ '=')).drop 1
      if ¬ validateIdent ident then false
      else
        match s with
        | '"' :: s =>
          match closeValue s 0 with
          | none => false
          | some [] => true
          | some (',' :: s) => validateTags fuel (s.dropWhile (fun c => c = ' '))
          | some (_ :: _) => false
        | _ => false

/-- The check `validateMetric` of the metric registry on a gauge name. -/
def validateMetric (name : String) : Bool :=
  let s := name.data
  if s.length = 0 then false
  else if ¬ s.contains '\x7b' then validateIdent s
  else
    let ident := s.takeWhile (fun c => c ≠ '\x7b')
    let s := (s.dropWhile (fun c => c ≠ '\x7b')).drop 1
    if ¬ validateIdent ident then false
    else if s.length = 0 ∨ s.getLast? ≠ some '\x7d' then false
    else if s.dropLast.length = 0 then true
    else validateTags s.dropLast.length s.dropLast

/-- The registry of `github.com/VictoriaMetrics/metrics`: a name is taken when it passes
`validateMetric` and is not registered yet. -/
def metricsGaugeAccepted (gauges : List String) (name : String) : Bool :=
  validateMetric name && !gauges.contains name

/-! ## A scheduler for concrete inputs -/

/-- The number of blank-separated fields of a text; `inField` tells whether the previous
character belonged to a field. -/
def countFields : List Char → Bool → Nat
  | [], _ => 0
  | c :: cs, inField =>
    if c = ' ' then countFields cs false
    else (if inField then 0 else 1) + countFields cs true

/-- A scheduler that takes a cron expression of five blank-separated fields and refuses
every other one. It is not the parser of `gocron`, which also looks at the content of the
fields; it stands in for the scheduler where a theorem is applied to a concrete input, and
there only five-field expressions with values in range are used, which both take. -/
def fiveFieldCronDo (jobs : List Job) (c : String) : DoResult × List Job :=
  if countFields c.data false = 5 then (.ok ⟨c⟩, jobs ++ [⟨c⟩])
  else (.failed none (.scheduling c), jobs)

/-- The environment made of the duration parser and the registry check above and the
five-field scheduler. -/
def goEnv : Env := ⟨ParseDuration fracNsFloat, metricsGaugeAccepted, fiveFieldCronDo⟩

/-! ## The maintenance window -/

/-- The Go struct `MaintenanceWindow`. -/
structure MaintenanceWindow where
  Name : String
  Labels : GoMap
  CronExpression : String
  Duration : Duration
  Job : Option Job
  Gauge : Option Gauge
  gaugeValue : Int
  deriving DecidableEq

/-- The zero value `var m MaintenanceWindow`. -/
def MaintenanceWindow.zero : MaintenanceWindow :=
  { Name := "", Labels := none, CronExpression := "", Duration := 0, Job := none,
    Gauge := none, gaugeValue := 0 }

/-- The method `setActive`: `m.gaugeValue = float64(1)`. -/
def MaintenanceWindow.setActive (m : MaintenanceWindow) : MaintenanceWindow :=
  { m with gaugeValue := 1 }

/-- The method `setInactive`: `m.gaugeValue = float64(0)`. -/
def MaintenanceWindow.setInactive (m : MaintenanceWindow) : MaintenanceWindow :=
  { m with gaugeValue := 0 }

/-- The method `getGaugeValue`: the value read and the receiver afterwards. -/
def MaintenanceWindow.getGaugeValue (m : MaintenanceWindow) : Int × MaintenanceWindow :=
  (m.gaugeValue, m)

/-- The body of the loop in `String`, run over the entries still to visit. -/
def stringLoop (len : Nat) : List (String × String) → Nat → String → String
  | [], _, msg => msg
  | (k, v) :: rest, count, msg =>
    let msg := msg ++ (k ++ ":\"" ++ v ++ "\"")
    let msg := if (count : Int) = (len : Int) - 1 then msg ++ "\x7d" else msg ++ ","
    stringLoop len rest (count + 1) msg

/-- The entries a `range` loop over the map `l` visits; a nil map has none. -/
def rangeOver (rng : RangeOrder) (l : GoMap) : List (String × String) :=
  match l with
  | none => []
  | some t => rng.visit t

/-- The method `String`: the text returned and the receiver afterwards. -/
def MaintenanceWindow.String (rng : RangeOrder) (m : MaintenanceWindow) :
    String × MaintenanceWindow :=
  (stringLoop m.Labels.len (rangeOver rng m.Labels) 0
    ("\"" ++ m.Name ++ "\"(" ++ m.CronExpression ++ ") - \x7b"), m)

/-- Where one invocation of `Task` stands. -/
inductive TaskPc where
  /-- `Task` has been called and has not yet executed `m.setActive()`. -/
  | entry
  /-- Blocked in `select` on `time.After(m.Duration)`, with `left` nanoseconds to go. -/
  | waiting (left : Nat)
  /-- The timer has fired; the `case` body has not run yet. -/
  | elapsed
  /-- `Task` has returned. -/
  | finished
  /-- `m.Job.NextRun()` was evaluated with `m.Job == nil`. -/
  | crashed
  deriving DecidableEq, Repr

/-- A window together with the position of its running `Task`. -/
structure TaskState where
  m : MaintenanceWindow
  pc : TaskPc
  deriving DecidableEq

/-- The state in which `Task` has just been invoked on `m`. -/
def Task.start (m : MaintenanceWindow) : TaskState := ⟨m, .entry⟩

/-- One step of `Task`. From `entry` the window is set active and the timer is armed with
`m.Duration` (a duration that is not positive fires at once); while waiting, a nanosecond
passes; when the timer has fired, the log line reads `m.Job.NextRun()`, which needs a job,
and the window is set inactive. -/
def Task.step (s : TaskState) : TaskState :=
  match s.pc with
  | .entry => ⟨s.m.setActive, .waiting s.m.Duration.toNat⟩
  | .waiting (left + 1) => ⟨s.m, .waiting left⟩
  | .waiting 0 => ⟨s.m, .elapsed⟩
  | .elapsed =>
    match s.m.Job with
    | none => ⟨s.m, .crashed⟩
    | some _ => ⟨s.m.setInactive, .finished⟩
  | .finished => s
  | .crashed => s

/-- The state `k` steps into the invocation of `Task` on `m`. -/
def Task.run (m : MaintenanceWindow) (k : Nat) : TaskState :=
  Task.step^[k] (Task.start m)

/-- The two window states agree on every field other than `gaugeValue`. -/
def sameButGaugeValue (a b : MaintenanceWindow) : Prop :=
  a.Name = b.Name ∧ a.Labels = b.Labels ∧ a.CronExpression = b.CronExpression ∧
  a.Duration = b.Duration ∧ a.Job = b.Job ∧ a.Gauge = b.Gauge

instance (a b : MaintenanceWindow) : Decidable (sameButGaugeValue a b) := by
  unfold sameButGaugeValue
  infer_instance

/-- The loop that builds the gauge name in `NewMaintenanceWindow`, run over the entries still
to visit; `len` is `len(l)`, `count` and `mname` are the loop's variables. -/
def gaugeNameLoop (len : Nat) : List (String × String) → Nat → String → String
  | [], _, mname => mname
  | (k, v) :: rest, count, mname =>
    let count := count + 1
    let mname := mname ++ (k ++ "=\"" ++ v ++ "\"")
    let mname := if count = len then mname ++ "\x7d" else mname ++ ","
    gaugeNameLoop len rest count mname

/-- The text of one label pair inside a gauge name: the key, `="`, the value, `"`. -/
def labelPair (e : String × String) : String := e.1 ++ "=\"" ++ e.2 ++ "\""

/-- Lines 123 to 133 of `main.go`: the gauge name built from the map `l`. -/
def gaugeName (rng : RangeOrder) (l : GoMap) : String :=
  gaugeNameLoop l.len (rangeOver rng l) 0 "maintenance_active\x7b"

/-- What a call of `NewMaintenanceWindow` leaves behind when it returns: the two results, the
caller's map (which the call has written to) and the state of the collaborators. -/
structure Constructed where
  window : Option MaintenanceWindow
  err : Option Error
  labels : GoMap
  world : World
  deriving DecidableEq

/-- The function `NewMaintenanceWindow(s, c, d, n, l)`. -/
def NewMaintenanceWindow (env : Env) (rng : RangeOrder) (world : World)
    (c d n : String) (l : GoMap) : Outcome Constructed :=
  match mapassign l "name" n with
  | none => .panicked "assignment to entry in nil map"
  | some t =>
    let l : GoMap := some t
    let m : MaintenanceWindow :=
      { MaintenanceWindow.zero with Name := n, Labels := l, CronExpression := c }
    let mname := gaugeName rng l
    let m := m.setInactive
    match NewGauge env world mname with
    | none => .panicked "metrics.NewGauge: the registry refuses the name"
    | some (g, world) =>
      let m := { m with Gauge := some g }
      match env.parseDuration d with
      | .error err => .returned ⟨none, some err, l, world⟩
      | .ok dur =>
        let m := { m with Duration := dur }
        match env.cronDo world.jobs c with
        | (.ok job, jobs) =>
          .returned ⟨some { m with Job := some job }, none, l, { world with jobs := jobs }⟩
        | (.failed job err, jobs) =>
          .returned ⟨some { m with Job := job }, some err, l, { world with jobs := jobs }⟩

/-! ## Startup -/

/-- The Go struct `MaintenanceWindowConfig`. -/
structure MaintenanceWindowConfig where
  Name : String
  Duration : String
  Labels : GoMap
  Cron : String

/-- The first loop of `main`: one call of `NewMaintenanceWindow` per configured window, each
result pointer appended to `maintenanceWindows`. The two log calls in the body change
nothing (`fmt` prints a nil pointer without dereferencing it). -/
def constructionLoop (env : Env) (rng : RangeOrder) :
    List MaintenanceWindowConfig → World → List (Option MaintenanceWindow) →
    Outcome (List (Option MaintenanceWindow) × World)
  | [], world, maintenanceWindows => .returned (maintenanceWindows, world)
  | w :: rest, world, maintenanceWindows =>
    match NewMaintenanceWindow env rng world w.Cron w.Duration w.Name w.Labels with
    | .panicked msg => .panicked msg
    | .returned r => constructionLoop env rng rest r.world (maintenanceWindows ++ [r.window])

/-- The second loop of `main`: for each element `m` of `maintenanceWindows` it evaluates
`m.Name` and `m.Job.NextRun()`. -/
def reportLoop : List (Option MaintenanceWindow) → Outcome Unit
  | [] => .returned ()
  | none :: _ => .panicked "invalid memory address or nil pointer dereference"
  | some m :: rest =>
    match m.Job with
    | none => .panicked "invalid memory address or nil pointer dereference"
    | some _ => reportLoop rest

/-- The function `main` from its first line to the point where it starts serving metrics: a
new scheduler, the construction loop, the start of the scheduler and the reporting loop. -/
def mainStartup (env : Env) (rng : RangeOrder) (windows : List MaintenanceWindowConfig)
    (gauges : List String) : Outcome (List (Option MaintenanceWindow) × World) :=
  match constructionLoop env rng windows ⟨gauges, []⟩ [] with
  | .panicked msg => .panicked msg
  | .returned (maintenanceWindows, world) =>
    match reportLoop maintenanceWindows with
    | .panicked msg => .panicked msg
    | .returned () => .returned (maintenanceWindows, world)

/-! ## Characters of a gauge name -/

/-- The characters that follow a label pair in a gauge name: a comma and the next pair for
every entry still to come, then the closing brace. -/
def tailData : List (String × String) → List Char
  | [] => ['}']
  | p :: r => ',' :: ((labelPair p).data ++ tailData r)

/-- The characters of the pairs of a gauge name together with the closing brace. -/
def pairsData : List (String × String) → List Char
  | [] => ['}']
  | p :: r => (labelPair p).data ++ tailData r

/-! ## Sample values -/

/-- An allocated map with the single entry `team = "db"`. -/
def teamDb : Table := ⟨[("team", "db")], by decide⟩

/-- An allocated map whose one key, `name="a",b`, contains the character `"`. -/
def quotedKey : Table := ⟨[("name=\"a\",b", "c")], by decide⟩

/-- An allocated map whose one key, `my-label`, is not an identifier of the registry. -/
def dashedKey : Table := ⟨[("my-label", "x")], by decide⟩

/-- An allocated map that already holds a value under `name`. -/
def staleName : Table := ⟨[("name", "old"), ("team", "db")], by decide⟩

/-- The window that `NewMaintenanceWindow` returns for the name `backup`, the schedule
`0 2 * * *`, the duration `3ns` and an allocated map without entries. -/
def backupWindow : MaintenanceWindow :=
  { Name := "backup", Labels := some ⟨[("name", "backup")], by decide⟩,
    CronExpression := "0 2 * * *", Duration := 3, Job := some ⟨"0 2 * * *"⟩,
    Gauge := some ⟨"maintenance_active\x7bname=\"backup\"\x7d"⟩, gaugeValue := 0 }

/-- A configuration of two windows: `backup` is well formed, `reindex` has a duration that
`time.ParseDuration` rejects. -/
def twoWindows : List MaintenanceWindowConfig :=
  [⟨"backup", "30m", some ⟨[("team", "db")], by decide⟩, "0 2 * * *"⟩,
   ⟨"reindex", "notaduration", some ⟨[("team", "search")], by decide⟩, "0 3 * * *"⟩]

/-! ## The gauge name -/

theorem intercalate_go_append (x acc s : String) (as : List String) :
    String.intercalate.go (x ++ acc) s as = x ++ String.intercalate.go acc s as := by
  induction as generalizing acc with
  | nil => simp [String.intercalate.go]
  | cons a as ih =>
    simp only [String.intercalate.go]
    rw [String.append_assoc, String.append_assoc, ih, String.append_assoc]

theorem gaugeNameLoop_eq (len : Nat) (rest : List (String × String)) :
    ∀ (p : String × String) (count : Nat) (acc : String), count + 1 + rest.length = len →
      gaugeNameLoop len (p :: rest) count acc
        = acc ++ String.intercalate "," ((p :: rest).map labelPair) ++ "\x7d" := by
  induction rest with
  | nil =>
    intro p count acc h
    obtain ⟨k, v⟩ := p
    simp at h
    simp [gaugeNameLoop, h, String.intercalate, String.intercalate.go, labelPair,
      String.append_assoc]
  | cons q r ih =>
    intro p count acc h
    obtain ⟨k, v⟩ := p
    have hne : count + 1 ≠ len := by simp at h; omega
    have e : k ++ "=\"" ++ v ++ "\"" = labelPair (k, v) := rfl
    rw [gaugeNameLoop]
    simp only [hne, if_false]
    rw [e, ih q (count + 1) _ (by simp at h ⊢; omega)]
    simp only [List.map_cons, String.intercalate, String.intercalate.go]
    rw [intercalate_go_append (labelPair (k, v) ++ ",") (labelPair q)]
    simp only [String.append_assoc]

theorem assign_entries_ne_nil (t : Table) (k v : String) : (t.assign k v).entries ≠ [] := by
  simp [Table.assign]

theorem gaugeName_eq (rng : RangeOrder) (t : Table) (h : t.entries ≠ []) :
    gaugeName rng (some t)
      = "maintenance_active\x7b" ++ String.intercalate "," ((rng.visit t).map labelPair) ++ "\x7d" := by
  have hlen : (rng.visit t).length = t.entries.length := (rng.perm t).length_eq
  show gaugeNameLoop t.entries.length (rng.visit t) 0 "maintenance_active\x7b" = _
  cases hv : rng.visit t with
  | nil =>
    rw [hv] at hlen
    exact absurd (List.length_eq_zero.1 hlen.symm) h
  | cons p rest =>
    rw [hv] at hlen
    exact gaugeNameLoop_eq t.entries.length rest p 0 "maintenance_active\x7b"
      (by rw [← hlen, List.length_cons]; omega)

/-- The outcome of `NewMaintenanceWindow` on an allocated map whose gauge name the registry
takes, in one formula. -/
theorem NewMaintenanceWindow_accepted (env : Env) (rng : RangeOrder) (world : World)
    (c d n : String) (t : Table)
    (hacc : env.gaugeAccepted world.gauges (gaugeName rng (some (t.assign "name" n))) = true) :
    NewMaintenanceWindow env rng world c d n (some t) =
      (let l : GoMap := some (t.assign "name" n)
       let gauges := world.gauges ++ [gaugeName rng l]
       let m : MaintenanceWindow :=
         { Name := n, Labels := l, CronExpression := c, Duration := 0, Job := none,
           Gauge := some ⟨gaugeName rng l⟩, gaugeValue := 0 }
       match env.parseDuration d with
       | .error err => .returned ⟨none, some err, l, ⟨gauges, world.jobs⟩⟩
       | .ok dur =>
         match env.cronDo world.jobs c with
         | (.ok job, jobs) =>
           .returned ⟨some { m with Duration := dur, Job := some job }, none, l, ⟨gauges, jobs⟩⟩
         | (.failed job err, jobs) =>
           .returned ⟨some { m with Duration := dur, Job := job }, some err, l, ⟨gauges, jobs⟩⟩) := by
  simp only [NewMaintenanceWindow, mapassign, NewGauge, hacc, if_true,
    MaintenanceWindow.setInactive, MaintenanceWindow.zero]

/-- On an allocated map whose gauge name the registry refuses, `NewMaintenanceWindow`
panics at line 136. -/
theorem NewMaintenanceWindow_refused (env : Env) (rng : RangeOrder) (world : World)
    (c d n : String) (t : Table)
    (hacc : env.gaugeAccepted world.gauges (gaugeName rng (some (t.assign "name" n))) = false) :
    NewMaintenanceWindow env rng world c d n (some t)
      = .panicked "metrics.NewGauge: the registry refuses the name" := by
  simp [NewMaintenanceWindow, mapassign, NewGauge, hacc]

theorem mapassign_eq_some {l : GoMap} {k v : String} {t : Table}
    (h : mapassign l k v = some t) : ∃ t0, l = some t0 ∧ t = t0.assign k v := by
  cases l with
  | none => simp [mapassign] at h
  | some t0 => exact ⟨t0, rfl, by simpa [mapassign] using h.symm⟩

/-- On an allocated map whose gauge name the registry takes, `NewMaintenanceWindow` returns,
and the registry has gained exactly the name built by the loop. -/
theorem NewMaintenanceWindow_returns (env : Env) (rng : RangeOrder) (world : World)
    (c d n : String) (t : Table)
    (hacc : env.gaugeAccepted world.gauges (gaugeName rng (some (t.assign "name" n))) = true) :
    ∃ r, NewMaintenanceWindow env rng world c d n (some t) = .returned r ∧
      r.labels = some (t.assign "name" n) ∧
      r.world.gauges = world.gauges ++ [gaugeName rng (some (t.assign "name" n))] ∧
      (∀ w, r.window = some w → w.Name = n ∧ w.Labels = r.labels ∧ w.CronExpression = c ∧
        w.gaugeValue = 0 ∧ env.parseDuration d = .ok w.Duration ∧
        (r.err = none → w.Job ≠ none)) := by
  rw [NewMaintenanceWindow_accepted env rng world c d n t hacc]
  cases hd : env.parseDuration d with
  | error e => exact ⟨_, rfl, rfl, rfl, by simp⟩
  | ok dur =>
    rcases hc : env.cronDo world.jobs c with ⟨res, jobs⟩
    cases res with
    | ok job => exact ⟨_, rfl, rfl, rfl, by simp⟩
    | failed job err => exact ⟨_, rfl, rfl, rfl, by simp⟩

/-- Whatever `NewMaintenanceWindow` returns, it returns on an allocated map whose gauge name
the registry has taken. -/
theorem NewMaintenanceWindow_returned (env : Env) (rng : RangeOrder) (world : World)
    (c d n : String) (l : GoMap) (r : Constructed)
    (h : NewMaintenanceWindow env rng world c d n l = .returned r) :
    ∃ t0, l = some t0 ∧
      env.gaugeAccepted world.gauges (gaugeName rng (some (t0.assign "name" n))) = true ∧
      r.labels = some (t0.assign "name" n) ∧
      r.world.gauges = world.gauges ++ [gaugeName rng (some (t0.assign "name" n))] ∧
      (∀ w, r.window = some w → w.Name = n ∧ w.Labels = r.labels ∧ w.CronExpression = c ∧
        w.gaugeValue = 0 ∧ env.parseDuration d = .ok w.Duration ∧
        (r.err = none → w.Job ≠ none)) := by
  cases l with
  | none => simp [NewMaintenanceWindow, mapassign] at h
  | some t0 =>
    cases hacc : env.gaugeAccepted world.gauges (gaugeName rng (some (t0.assign "name" n))) with
    | false =>
      rw [NewMaintenanceWindow_refused env rng world c d n t0 hacc] at h
      cases h
    | true =>
      obtain ⟨s, hs, h1, h2, h3⟩ := NewMaintenanceWindow_returns env rng world c d n t0 hacc
      rw [hs] at h
      cases h
      exact ⟨t0, rfl, hacc, h1, h2, h3⟩

/-- C1. For every name `n` and label map `l`, with `t` the map after `l["name"] = n` and
`rng.visit t` its entries in the order the construction loop visits them: there is at least
one entry, and the gauge name that the loop builds and `NewMaintenanceWindow` hands to
`metrics.NewGauge` is `maintenance_active{`, the pairs `k="v"` joined by single commas, and
`}`. When the registry takes that name, `NewMaintenanceWindow` returns and that name is the
one name it has registered; when the registry refuses it, the call panics and nothing is
registered. With a single entry the joined text is that pair alone. -/
theorem C1_gauge_name_is_comma_joined_pairs (env : Env) (rng : RangeOrder) (world : World)
    (c d n : String) (l : GoMap) (t : Table) (h : mapassign l "name" n = some t) :
    1 ≤ (rng.visit t).length ∧
    gaugeName rng (some t) =
      "maintenance_active\x7b" ++ String.intercalate "," ((rng.visit t).map labelPair) ++ "\x7d" ∧
    (env.gaugeAccepted world.gauges (gaugeName rng (some t)) = true →
      ∃ r, NewMaintenanceWindow env rng world c d n l = .returned r ∧
        r.world.gauges = world.gauges ++
          ["maintenance_active\x7b" ++ String.intercalate "," ((rng.visit t).map labelPair)
            ++ "\x7d"]) ∧
    (env.gaugeAccepted world.gauges (gaugeName rng (some t)) = false →
      NewMaintenanceWindow env rng world c d n l
        = .panicked "metrics.NewGauge: the registry refuses the name") ∧
    (∀ k v, rng.visit t = [(k, v)] →
      String.intercalate "," ((rng.visit t).map labelPair) = k ++ "=\"" ++ v ++ "\"") := by
  obtain ⟨t0, rfl, rfl⟩ := mapassign_eq_some h
  have hname := gaugeName_eq rng _ (assign_entries_ne_nil t0 "name" n)
  refine ⟨?_, hname, ?_, ?_, ?_⟩
  · rw [(rng.perm _).length_eq]
    simp [Table.assign]
  · intro hacc
    obtain ⟨r, hr, -, hg, -⟩ := NewMaintenanceWindow_returns env rng world c d n t0 hacc
    refine ⟨r, hr, ?_⟩
    rw [hg, hname]
  · intro hacc
    exact NewMaintenanceWindow_refused env rng world c d n t0 hacc
  · intro k v hv
    rw [hv]
    rfl

/-- An instance of the theorem above: the map `team = "db"`, the name `backup`, the entries
visited in reverse stored order. -/
theorem C1_gauge_name_is_comma_joined_pairs_witness :
    mapassign (some teamDb) "name" "backup" = some (teamDb.assign "name" "backup") ∧
    gaugeName RangeOrder.reversed (some (teamDb.assign "name" "backup"))
      = "maintenance_active\x7bteam=\"db\",name=\"backup\"\x7d" ∧
    ∃ r, NewMaintenanceWindow goEnv RangeOrder.reversed ⟨[], []⟩ "0 2 * * *" "30m" "backup"
        (some teamDb) = .returned r ∧
      r.world.gauges = ["maintenance_active\x7bteam=\"db\",name=\"backup\"\x7d"] :=
  ⟨rfl,
    (C1_gauge_name_is_comma_joined_pairs goEnv RangeOrder.reversed ⟨[], []⟩ "0 2 * * *" "30m"
      "backup" (some teamDb) (teamDb.assign "name" "backup") rfl).2.1,
    (C1_gauge_name_is_comma_joined_pairs goEnv RangeOrder.reversed ⟨[], []⟩ "0 2 * * *" "30m"
      "backup" (some teamDb) (teamDb.assign "name" "backup") rfl).2.2.1 rfl⟩

/-! ## The loop on a map without entries -/

/-- C2, as claimed, fails: the loop appends the closing brace only after the last pair, so
over an allocated map with no entries its result is not `maintenance_active{}`. -/
theorem C2_counterexample :
    gaugeName RangeOrder.stored (some ⟨[], List.nodup_nil⟩) ≠ "maintenance_active\x7b\x7d" := by
  decide

/-- C2, amended. Over a map with no entries the loop of lines 123 to 133 yields
`maintenance_active{`, without a closing brace; inside `NewMaintenanceWindow` the loop never
meets such a map, because the map holds the key `name` by then. -/
theorem C2_no_entries_no_closing_brace (rng : RangeOrder) (l : GoMap) (h : l.len = 0) :
    gaugeName rng l = "maintenance_active\x7b" ∧
    ∀ (l0 : GoMap) (n : String) (t : Table),
      mapassign l0 "name" n = some t → 1 ≤ GoMap.len (some t) := by
  constructor
  · cases l with
    | none => rfl
    | some t =>
      have h0 : t.entries = [] := List.length_eq_zero.1 h
      have hv : rng.visit t = [] := by
        have := (rng.perm t).length_eq
        rw [h0] at this
        exact List.length_eq_zero.1 this
      simp [gaugeName, rangeOver, hv, gaugeNameLoop]
  · intro l0 n t ht
    obtain ⟨t0, rfl, rfl⟩ := mapassign_eq_some ht
    simp [GoMap.len, Table.assign]

/-- An instance of the theorem above: the allocated map without entries. -/
theorem C2_no_entries_no_closing_brace_witness :
    GoMap.len (some ⟨[], List.nodup_nil⟩) = 0 ∧
    gaugeName RangeOrder.stored (some ⟨[], List.nodup_nil⟩) = "maintenance_active\x7b" :=
  ⟨rfl, (C2_no_entries_no_closing_brace RangeOrder.stored (some ⟨[], List.nodup_nil⟩) rfl).1⟩

/-! ## Distinct names, distinct gauge names -/

theorem intercalate_cons_cons (s a b : String) (r : List String) :
    String.intercalate s (a :: b :: r) = a ++ s ++ String.intercalate s (b :: r) := by
  simp only [String.intercalate, String.intercalate.go]
  rw [intercalate_go_append (a ++ s) b]

theorem intercalate_data (p : String × String) (r : List (String × String)) :
    (String.intercalate "," ((p :: r).map labelPair) ++ "\x7d").data = pairsData (p :: r) := by
  induction r generalizing p with
  | nil => simp [String.intercalate, String.intercalate.go, pairsData, tailData]
  | cons q r ih =>
    rw [List.map_cons, List.map_cons, intercalate_cons_cons, String.append_assoc,
      String.data_append, String.data_append, ← List.map_cons, ih q]
    simp [pairsData, tailData]

theorem tailData_length_perm {xs ys : List (String × String)} (h : xs.Perm ys) :
    (tailData xs).length = (tailData ys).length := by
  induction h with
  | nil => rfl
  | cons x _ ih => simp [tailData, ih]
  | swap x y l => simp [tailData]; omega
  | trans _ _ ih1 ih2 => exact ih1.trans ih2

theorem quote_split : ∀ (a b x y : List Char), '"' ∉ a → '"' ∉ b →
    a ++ '"' :: x = b ++ '"' :: y → a = b ∧ x = y := by
  intro a
  induction a with
  | nil =>
    intro b x y _ hb h
    cases b with
    | nil => simpa using h
    | cons c b =>
      simp at h
      exact absurd (h.1 ▸ List.mem_cons_self _ _) hb
  | cons c a ih =>
    intro b x y ha hb h
    cases b with
    | nil =>
      simp at h
      exact absurd (h.1 ▸ List.mem_cons_self _ _) ha
    | cons c' b =>
      simp only [List.cons_append, List.cons.injEq] at h
      obtain ⟨h1, h2⟩ := ih b x y (fun hm => ha (List.mem_cons_of_mem _ hm))
        (fun hm => hb (List.mem_cons_of_mem _ hm)) h.2
      exact ⟨by rw [h.1, h1], h2⟩


theorem pairsData_cons (x : String × String) (xr : List (String × String)) :
    pairsData (x :: xr) = (x.1.data ++ ['=']) ++ '"' :: (x.2.data ++ '"' :: tailData xr) := by
  simp [pairsData, labelPair]

theorem key_quote_free {R : List (String × String)} {n : String} {x : String × String}
    (hq : ∀ e ∈ R, '"' ∉ e.1.data) (hx : x ∈ ("name", n) :: R) : '"' ∉ x.1.data ++ ['='] := by
  rcases List.mem_cons.1 hx with rfl | hx
  · show '"' ∉ "name".data ++ ['=']
    decide
  · intro hm
    rcases List.mem_append.1 hm with hm | hm
    · exact hq x hx hm
    · simp at hm

theorem name_value_of_pairsData (xs : List (String × String)) :
    ∀ (ys R : List (String × String)) (n1 n2 : String),
      xs.Perm (("name", n1) :: R) → ys.Perm (("name", n2) :: R) →
      ("name" :: R.map Prod.fst).Nodup → (∀ e ∈ R, '"' ∉ e.1.data) →
      pairsData xs = pairsData ys → n1 = n2 := by
  induction xs with
  | nil => intro ys R n1 n2 hx; exact absurd hx.length_eq (by simp)
  | cons x xr ih =>
    intro ys R n1 n2 hx hy hnd hq heq
    cases ys with
    | nil => exact absurd hy.length_eq (by simp)
    | cons y yr =>
      have hxm : x ∈ ("name", n1) :: R := hx.subset (List.mem_cons_self _ _)
      have hym : y ∈ ("name", n2) :: R := hy.subset (List.mem_cons_self _ _)
      rw [pairsData_cons, pairsData_cons] at heq
      obtain ⟨hk, hrest⟩ := quote_split _ _ _ _ (key_quote_free hq hxm) (key_quote_free hq hym) heq
      have hkey : x.1 = y.1 := String.ext (List.append_cancel_right hk)
      have hnot : "name" ∉ R.map Prod.fst := (List.nodup_cons.1 hnd).1
      by_cases hname : x.1 = "name"
      · have hx' : x = ("name", n1) := by
          rcases List.mem_cons.1 hxm with h | h
          · exact h
          · exact absurd (hname ▸ List.mem_map_of_mem Prod.fst h) hnot
        have hy' : y = ("name", n2) := by
          rcases List.mem_cons.1 hym with h | h
          · exact h
          · exact absurd (hname ▸ hkey ▸ List.mem_map_of_mem Prod.fst h) hnot
        subst hx' hy'
        have hlen : (tailData xr).length = (tailData yr).length :=
          tailData_length_perm (hx.cons_inv.trans hy.cons_inv.symm)
        have hrest' : n1.data ++ '"' :: tailData xr = n2.data ++ '"' :: tailData yr := hrest
        have hl := congrArg List.length hrest'
        simp only [List.length_append, List.length_cons] at hl
        exact String.ext (List.append_inj hrest' (by omega)).1
      · have hxR : x ∈ R := by
          rcases List.mem_cons.1 hxm with h | h
          · exact absurd (by rw [h]) hname
          · exact h
        have hyR : y ∈ R := by
          rcases List.mem_cons.1 hym with h | h
          · exact absurd (by rw [hkey, h]) hname
          · exact h
        have hxy : x = y := List.inj_on_of_nodup_map (List.nodup_cons.1 hnd).2 hxR hyR hkey
        subst hxy
        obtain ⟨R', hR⟩ : ∃ R', R.Perm (x :: R') := ⟨_, List.perm_cons_erase hxR⟩
        have hxr : xr.Perm (("name", n1) :: R') :=
          (hx.trans ((hR.cons _).trans (List.Perm.swap _ _ _))).cons_inv
        have hyr : yr.Perm (("name", n2) :: R') :=
          (hy.trans ((hR.cons _).trans (List.Perm.swap _ _ _))).cons_inv
        have hnd' : ("name" :: R'.map Prod.fst).Nodup := by
          have h1 : ("name" :: (x :: R').map Prod.fst).Nodup :=
            (((hR.map Prod.fst).cons "name").nodup_iff).1 hnd
          rw [List.map_cons] at h1
          exact (((List.sublist_cons_self x.1 (R'.map Prod.fst)).cons₂ "name")).nodup h1
        have hq' : ∀ e ∈ R', '"' ∉ e.1.data :=
          fun e he => hq e (hR.symm.subset (List.mem_cons_of_mem _ he))
        have htail : tailData xr = tailData yr :=
          List.cons.inj (List.append_cancel_left hrest) |>.2
        cases xr with
        | nil => exact absurd hxr.length_eq (by simp)
        | cons x' xr' =>
          cases yr with
          | nil => exact absurd hyr.length_eq (by simp)
          | cons y' yr' =>
            apply ih (y' :: yr') R' n1 n2 hxr hyr hnd' hq'
            simpa [tailData, pairsData] using htail

theorem gaugeName_data (rng : RangeOrder) (t : Table) (h : t.entries ≠ []) :
    (gaugeName rng (some t)).data = "maintenance_active\x7b".data ++ pairsData (rng.visit t) := by
  rw [gaugeName_eq rng t h, String.append_assoc, String.data_append]
  cases hv : rng.visit t with
  | nil => rfl
  | cons p r => rw [intercalate_data]

/-- C3, as claimed, fails. The map with the single key `name="a",b` (value `c`) and the two
names `a",b="c",name="q` and `q",name="a",b="c` differ in the name only. With the first call
visiting `name` first and the second call visiting it last, each on a registry without
entries, both calls return and both have registered the same gauge name,
`maintenance_active{name="a",b="c",name="q",name="a",b="c"}`, which the registry takes. -/
theorem C3_counterexample :
    "a\",b=\"c\",name=\"q" ≠ "q\",name=\"a\",b=\"c" ∧
    ∃ r1 r2,
      NewMaintenanceWindow goEnv RangeOrder.stored ⟨[], []⟩ "0 2 * * *" "30m"
        "a\",b=\"c\",name=\"q" (some quotedKey) = .returned r1 ∧
      NewMaintenanceWindow goEnv RangeOrder.reversed ⟨[], []⟩ "0 2 * * *" "30m"
        "q\",name=\"a\",b=\"c" (some quotedKey) = .returned r2 ∧
      r1.world.gauges
        = ["maintenance_active\x7bname=\"a\",b=\"c\",name=\"q\",name=\"a\",b=\"c\"\x7d"] ∧
      r2.world.gauges
        = ["maintenance_active\x7bname=\"a\",b=\"c\",name=\"q\",name=\"a\",b=\"c\"\x7d"] :=
  ⟨by decide, _, _, rfl, rfl, rfl, rfl⟩

/-- C3, amended. Take two calls of `NewMaintenanceWindow` on identical label maps `l` none of
whose keys contains the character `"`, with names `n1` and `n2` that differ. Whenever the two
calls return, each has registered one gauge name and the two names are different strings,
for every order in which either call iterates over the map and for every content of the
values and of the names; and on an allocated map both calls do return when the registry
takes the two names. -/
theorem C3_distinct_names_distinct_gauge_names (env1 env2 : Env) (rng1 rng2 : RangeOrder)
    (world1 world2 : World) (c1 d1 c2 d2 n1 n2 : String) (l : GoMap) (hn : n1 ≠ n2)
    (hq : ∀ t, l = some t → ∀ e ∈ t.entries, '"' ∉ e.1.data) :
    (∀ r1 r2, NewMaintenanceWindow env1 rng1 world1 c1 d1 n1 l = .returned r1 →
      NewMaintenanceWindow env2 rng2 world2 c2 d2 n2 l = .returned r2 →
      ∃ g1 g2, r1.world.gauges = world1.gauges ++ [g1] ∧
        r2.world.gauges = world2.gauges ++ [g2] ∧ g1 ≠ g2) ∧
    (∀ t, l = some t →
      env1.gaugeAccepted world1.gauges (gaugeName rng1 (some (t.assign "name" n1))) = true →
      env2.gaugeAccepted world2.gauges (gaugeName rng2 (some (t.assign "name" n2))) = true →
      ∃ r1 r2, NewMaintenanceWindow env1 rng1 world1 c1 d1 n1 l = .returned r1 ∧
        NewMaintenanceWindow env2 rng2 world2 c2 d2 n2 l = .returned r2) := by
  refine ⟨fun r1 r2 h1 h2 => ?_, fun t ht ha1 ha2 => ?_⟩
  · obtain ⟨t0, rfl, -, -, hg1, -⟩ := NewMaintenanceWindow_returned env1 rng1 world1 c1 d1 n1 l r1 h1
    obtain ⟨t0', ht0, -, -, hg2, -⟩ :=
      NewMaintenanceWindow_returned env2 rng2 world2 c2 d2 n2 (some t0) r2 h2
    cases ht0
    refine ⟨_, _, hg1, hg2, fun heq => hn ?_⟩
    have hd := congrArg String.data heq
    rw [gaugeName_data rng1 _ (assign_entries_ne_nil t0 "name" n1),
      gaugeName_data rng2 _ (assign_entries_ne_nil t0 "name" n2)] at hd
    have hnd : ("name" :: (t0.entries.filter (fun e => e.1 != "name")).map Prod.fst).Nodup := by
      simpa [Table.assign] using (t0.assign "name" n1).nodup
    exact name_value_of_pairsData _ _ (t0.entries.filter (fun e => e.1 != "name")) n1 n2
      (rng1.perm (t0.assign "name" n1)) (rng2.perm (t0.assign "name" n2)) hnd
      (fun e he => hq t0 rfl e (List.mem_filter.1 he).1) (List.append_cancel_left hd)
  · subst ht
    obtain ⟨s1, hs1, -⟩ := NewMaintenanceWindow_returns env1 rng1 world1 c1 d1 n1 t ha1
    obtain ⟨s2, hs2, -⟩ := NewMaintenanceWindow_returns env2 rng2 world2 c2 d2 n2 t ha2
    exact ⟨s1, s2, hs1, hs2⟩

/-- An instance of the theorem above: the map `team = "db"` with the names `backup` and
`reindex`, visited in opposite orders. -/
theorem C3_distinct_names_distinct_gauge_names_witness :
    "backup" ≠ "reindex" ∧
    (∀ t, some teamDb = some t → ∀ e ∈ t.entries, '"' ∉ e.1.data) ∧
    ∃ r1 r2, NewMaintenanceWindow goEnv RangeOrder.stored ⟨[], []⟩ "0 2 * * *" "30m" "backup"
        (some teamDb) = .returned r1 ∧
      NewMaintenanceWindow goEnv RangeOrder.reversed ⟨[], []⟩ "0 3 * * *" "1h" "reindex"
        (some teamDb) = .returned r2 :=
  ⟨by decide, fun t ht e he => by cases ht; revert e he; decide,
    (C3_distinct_names_distinct_gauge_names goEnv goEnv RangeOrder.stored RangeOrder.reversed
      ⟨[], []⟩ ⟨[], []⟩ "0 2 * * *" "30m" "0 3 * * *" "1h" "backup" "reindex" (some teamDb)
      (by decide) (fun t ht e he => by cases ht; revert e he; decide)).2 teamDb rfl rfl rfl⟩

/-! ## Construction: duration, labels, errors -/

/-- C4, as claimed, fails: `time.ParseDuration` rejects `notaduration`, yet the call does not
return an error, neither on the nil map, where the store `l["name"] = n` panics, nor on the
allocated map with the key `my-label`, where `metrics.NewGauge` refuses the gauge name and
panics. Both panics come before the duration is looked at. -/
theorem C4_counterexample :
    goEnv.parseDuration "notaduration" = .error (.invalidDuration "notaduration") ∧
    NewMaintenanceWindow goEnv RangeOrder.stored ⟨[], []⟩ "0 2 * * *" "notaduration" "backup"
      none = .panicked "assignment to entry in nil map" ∧
    NewMaintenanceWindow goEnv RangeOrder.stored ⟨[], []⟩ "0 2 * * *" "notaduration" "backup"
      (some dashedKey) = .panicked "metrics.NewGauge: the registry refuses the name" :=
  ⟨rfl, rfl, rfl⟩

/-- C4, amended. For every cron expression `c`, name `n`, allocated label map `t` whose
gauge name the registry takes, and every duration string `d` that the duration parser
rejects with error `e`, `NewMaintenanceWindow` returns the error `e` and a nil window; the
job table of the scheduler is what it was before the call, and the outcome is the same
whatever the scheduler would have answered, the scheduler not being called. -/
theorem C4_rejected_duration_returns_error (env : Env) (rng : RangeOrder) (world : World)
    (c d n : String) (t : Table) (e : Error) (h : env.parseDuration d = .error e)
    (hacc : env.gaugeAccepted world.gauges (gaugeName rng (some (t.assign "name" n))) = true) :
    ∃ r, NewMaintenanceWindow env rng world c d n (some t) = .returned r ∧
      r.window = none ∧ r.err = some e ∧ r.world.jobs = world.jobs ∧
      ∀ cronDo, NewMaintenanceWindow ⟨env.parseDuration, env.gaugeAccepted, cronDo⟩ rng world
        c d n (some t) = .returned r := by
  refine ⟨⟨none, some e, some (t.assign "name" n),
    ⟨world.gauges ++ [gaugeName rng (some (t.assign "name" n))], world.jobs⟩⟩, ?_, rfl, rfl, rfl, ?_⟩
  · rw [NewMaintenanceWindow_accepted env rng world c d n t hacc]
    simp only [h]
  · intro cronDo
    rw [NewMaintenanceWindow_accepted ⟨env.parseDuration, env.gaugeAccepted, cronDo⟩ rng world
      c d n t hacc]
    simp only [h]

/-- An instance of the theorem above: the duration `notaduration`, with one job already in the
job table. -/
theorem C4_rejected_duration_returns_error_witness :
    goEnv.parseDuration "notaduration" = .error (.invalidDuration "notaduration") ∧
    goEnv.gaugeAccepted []
      (gaugeName RangeOrder.stored (some (teamDb.assign "name" "backup"))) = true ∧
    ∃ r, NewMaintenanceWindow goEnv RangeOrder.stored ⟨[], [⟨"0 1 * * *"⟩]⟩ "0 2 * * *"
        "notaduration" "backup" (some teamDb) = .returned r ∧
      r.window = none ∧ r.err = some (.invalidDuration "notaduration") ∧
      r.world.jobs = [⟨"0 1 * * *"⟩] :=
  ⟨rfl, rfl,
    let ⟨r, h1, h2, h3, h4, _⟩ := C4_rejected_duration_returns_error goEnv RangeOrder.stored
      ⟨[], [⟨"0 1 * * *"⟩]⟩ "0 2 * * *" "notaduration" "backup" teamDb
      (.invalidDuration "notaduration") rfl rfl
    ⟨r, h1, h2, h3, h4⟩⟩

theorem find_filter_ne (es : List (String × String)) (k k0 : String) (h : k ≠ k0) :
    (es.filter (fun e => e.1 != k0)).find? (fun e => e.1 == k) = es.find? (fun e => e.1 == k) := by
  induction es with
  | nil => rfl
  | cons e es ih =>
    by_cases h0 : e.1 = k0
    · have hk : ¬ ((e.1 == k) = true) := by
        intro hk
        exact h ((beq_iff_eq.1 hk).symm.trans h0)
      have hf : ¬ ((e.1 != k0) = true) := by simp [h0]
      rw [List.filter_cons_of_neg (p := fun e : String × String => e.1 != k0) hf,
        List.find?_cons_of_neg (p := fun e : String × String => e.1 == k) _ hk, ih]
    · have hf : (e.1 != k0) = true := by simp [h0]
      rw [List.filter_cons_of_pos (p := fun e : String × String => e.1 != k0) hf]
      by_cases hk : (e.1 == k) = true
      · rw [List.find?_cons_of_pos (p := fun e : String × String => e.1 == k) _ hk,
          List.find?_cons_of_pos (p := fun e : String × String => e.1 == k) _ hk]
      · rw [List.find?_cons_of_neg (p := fun e : String × String => e.1 == k) _ hk,
          List.find?_cons_of_neg (p := fun e : String × String => e.1 == k) _ hk, ih]

theorem lookup_assign_self (t : Table) (k v : String) : (t.assign k v).lookup k = some v := by
  simp [Table.lookup, Table.assign, List.find?_cons]

theorem lookup_assign_ne (t : Table) (k0 v k : String) (h : k ≠ k0) :
    (t.assign k0 v).lookup k = t.lookup k := by
  have hk : ¬ ((k0 == k) = true) := fun e => h (beq_iff_eq.1 e).symm
  show (List.find? (fun e => e.1 == k)
    ((k0, v) :: t.entries.filter (fun e => e.1 != k0))).map Prod.snd = _
  rw [List.find?_cons_of_neg (p := fun e : String × String => e.1 == k) _ hk, find_filter_ne t.entries k k0 h]
  rfl

/-- C8. For every name `n` and label map `l`: whenever `NewMaintenanceWindow` returns, with a
window or with an error, the caller's map holds `n` under the key `name` and, under every
other key, what it held before the call; a returned window has that same map as its `Labels`
and `n` as its `Name`, so its labels hold the window's name under `name`. On every allocated
map whose gauge name the registry takes, the call does return. -/
theorem C8_name_injected_into_labels (env : Env) (rng : RangeOrder) (world : World)
    (c d n : String) (l : GoMap) :
    (∀ r, NewMaintenanceWindow env rng world c d n l = .returned r →
      ∃ t0 t, l = some t0 ∧ r.labels = some t ∧ t.lookup "name" = some n ∧
        (∀ k, k ≠ "name" → t.lookup k = t0.lookup k) ∧
        (∀ w, r.window = some w →
          w.Labels = some t ∧ w.Name = n ∧ t.lookup "name" = some w.Name)) ∧
    (∀ t0, l = some t0 →
      env.gaugeAccepted world.gauges (gaugeName rng (some (t0.assign "name" n))) = true →
      ∃ r, NewMaintenanceWindow env rng world c d n l = .returned r) := by
  refine ⟨fun r h => ?_, fun t0 ht0 hacc => ?_⟩
  · obtain ⟨t0, rfl, -, hl, -, hw⟩ := NewMaintenanceWindow_returned env rng world c d n l r h
    refine ⟨t0, t0.assign "name" n, rfl, hl, lookup_assign_self t0 "name" n,
      fun k hk => lookup_assign_ne t0 "name" n k hk, fun w hw' => ?_⟩
    obtain ⟨h1, h2, -⟩ := hw w hw'
    exact ⟨h2.trans hl, h1, by rw [h1]; exact lookup_assign_self t0 "name" n⟩
  · subst ht0
    obtain ⟨s, hs, -⟩ := NewMaintenanceWindow_returns env rng world c d n t0 hacc
    exact ⟨s, hs⟩

/-- An instance of the theorem above: a map that already holds `name = "old"`. -/
theorem C8_name_injected_into_labels_witness :
    ∃ r t, NewMaintenanceWindow goEnv RangeOrder.stored ⟨[], []⟩ "0 2 * * *" "30m" "backup"
        (some staleName) = .returned r ∧
      r.labels = some t ∧ t.lookup "name" = some "backup" ∧ t.lookup "team" = some "db" :=
  let ⟨r, hr⟩ := (C8_name_injected_into_labels goEnv RangeOrder.stored ⟨[], []⟩ "0 2 * * *"
    "30m" "backup" (some staleName)).2 staleName rfl rfl
  let ⟨t0, t, h0, hl, hn, ho, _⟩ := (C8_name_injected_into_labels goEnv RangeOrder.stored
    ⟨[], []⟩ "0 2 * * *" "30m" "backup" (some staleName)).1 r hr
  ⟨r, t, hr, hl, hn, by
    cases h0
    rw [ho "team" (by decide)]
    rfl⟩

/-- C9, as claimed, fails: `time.ParseDuration` takes the string `-30m`, and
`NewMaintenanceWindow` returns a window and no error, with a `Duration` of minus thirty
minutes. -/
theorem C9_counterexample :
    ∃ r w, NewMaintenanceWindow goEnv RangeOrder.stored ⟨[], []⟩ "0 2 * * *" "-30m" "backup"
        (some ⟨[], List.nodup_nil⟩) = .returned r ∧
      r.window = some w ∧ r.err = none ∧ w.Duration = -1800000000000 ∧ w.Duration < 0 :=
  ⟨_, _, rfl, rfl, rfl, rfl, by decide⟩

/-- C9, amended. Whenever `NewMaintenanceWindow` returns a window, the duration parser has
accepted `d` and the window's `Duration` is the value it returned for `d`, whatever its
sign. -/
theorem C9_duration_is_parsed_value (env : Env) (rng : RangeOrder) (world : World)
    (c d n : String) (l : GoMap) (r : Constructed) (w : MaintenanceWindow)
    (h : NewMaintenanceWindow env rng world c d n l = .returned r) (hw : r.window = some w) :
    env.parseDuration d = .ok w.Duration := by
  obtain ⟨t0, -, -, -, -, hprop⟩ := NewMaintenanceWindow_returned env rng world c d n l r h
  exact (hprop w hw).2.2.2.2.1

/-- An instance of the theorem above: the duration `2h`. -/
theorem C9_duration_is_parsed_value_witness :
    goEnv.parseDuration "2h" = .ok 7200000000000 :=
  C9_duration_is_parsed_value goEnv RangeOrder.stored ⟨[], []⟩ "0 2 * * *" "2h" "backup"
    (some teamDb) _ _ rfl rfl

/-! ## Task -/

/-- Every state of an invocation of `Task` on `m`, by the number of steps taken. -/
theorem Task.run_eq (m : MaintenanceWindow) (k : Nat) :
    Task.run m k =
      if k = 0 then ⟨m, .entry⟩
      else if k ≤ m.Duration.toNat + 1 then ⟨m.setActive, .waiting (m.Duration.toNat + 1 - k)⟩
      else if k = m.Duration.toNat + 2 then ⟨m.setActive, .elapsed⟩
      else
        match m.Job with
        | none => ⟨m.setActive, .crashed⟩
        | some _ => ⟨m.setActive.setInactive, .finished⟩ := by
  induction k with
  | zero => rfl
  | succ k ih =>
    have hstep : Task.run m (k + 1) = Task.step (Task.run m k) :=
      Function.iterate_succ_apply' Task.step k (Task.start m)
    rw [hstep, ih]
    by_cases h0 : k = 0
    · subst h0
      simp [Task.step, MaintenanceWindow.setActive]
    · by_cases h1 : k ≤ m.Duration.toNat + 1
      · by_cases h2 : k = m.Duration.toNat + 1
        · subst h2
          simp [Task.step]
        · have h3 : k + 1 ≤ m.Duration.toNat + 1 := by omega
          obtain ⟨j, hj⟩ : ∃ j, m.Duration.toNat + 1 - k = j + 1 := ⟨m.Duration.toNat - k, by omega⟩
          have hj' : m.Duration.toNat + 1 - (k + 1) = j := by omega
          simp [h0, h1, h3, hj, hj', Task.step]
      · by_cases h2 : k = m.Duration.toNat + 2
        · have h3 : ¬ (k + 1 ≤ m.Duration.toNat + 1) := by omega
          have h4 : ¬ (k + 1 = m.Duration.toNat + 2) := by omega
          simp only [h0, h1, h2, h3, h4, if_false, if_true, Nat.succ_ne_zero]
          subst h2
          cases hJ : m.Job <;>
            simp [Task.step, MaintenanceWindow.setActive, MaintenanceWindow.setInactive, hJ]
        · have h3 : ¬ (k + 1 ≤ m.Duration.toNat + 1) := by omega
          have h4 : ¬ (k + 1 = m.Duration.toNat + 2) := by omega
          simp only [h0, h1, h2, h3, h4, if_false, Nat.succ_ne_zero]
          cases hJ : m.Job <;> simp [Task.step]

/-- C7. Let `w` be a window that `NewMaintenanceWindow` has returned with no error, and run one
invocation of `Task` on it. Before `Task` starts the gauge reads 0. After step `k`, for every
`k` from 1 to `D + 2` where `D` is the duration in nanoseconds (none when the duration is
negative), `Task` is between `setActive` and `setInactive`, waiting or with the timer just
fired, and the gauge reads 1. From step `D + 3` on `Task` has returned and the gauge reads
0. In every state the gauge reads 0 or 1. -/
theorem C7_gauge_is_one_exactly_while_task_waits (env : Env) (rng : RangeOrder)
    (world : World) (c d n : String) (l : GoMap) (r : Constructed) (w : MaintenanceWindow)
    (h : NewMaintenanceWindow env rng world c d n l = .returned r)
    (hw : r.window = some w) (he : r.err = none) :
    (Task.run w 0).m.getGaugeValue.1 = 0 ∧
    (∀ k, 1 ≤ k → k ≤ w.Duration.toNat + 2 →
      (Task.run w k).m.getGaugeValue.1 = 1 ∧
      (Task.run w k).pc =
        if k ≤ w.Duration.toNat + 1 then .waiting (w.Duration.toNat + 1 - k) else .elapsed) ∧
    (∀ k, w.Duration.toNat + 3 ≤ k →
      (Task.run w k).m.getGaugeValue.1 = 0 ∧ (Task.run w k).pc = .finished) ∧
    (∀ k, (Task.run w k).m.getGaugeValue.1 = 0 ∨ (Task.run w k).m.getGaugeValue.1 = 1) := by
  have hprop : w.gaugeValue = 0 ∧ w.Job ≠ none := by
    obtain ⟨t0, -, -, -, -, hp⟩ := NewMaintenanceWindow_returned env rng world c d n l r h
    exact ⟨(hp w hw).2.2.2.1, (hp w hw).2.2.2.2.2 he⟩
  obtain ⟨hg, hjob⟩ := hprop
  obtain ⟨job, hJ⟩ := Option.ne_none_iff_exists'.1 hjob
  have hrun := Task.run_eq w
  simp only [hJ] at hrun
  refine ⟨?_, ?_, ?_, ?_⟩
  · rw [hrun 0]
    simpa [MaintenanceWindow.getGaugeValue] using hg
  · intro k h1 h2
    have h0 : k ≠ 0 := by omega
    rw [hrun k]
    by_cases h3 : k ≤ w.Duration.toNat + 1
    · simp [h0, h3, MaintenanceWindow.getGaugeValue, MaintenanceWindow.setActive]
    · have h4 : k = w.Duration.toNat + 2 := by omega
      simp [h0, h3, h4, MaintenanceWindow.getGaugeValue, MaintenanceWindow.setActive]
  · intro k h1
    have h0 : k ≠ 0 := by omega
    have h3 : ¬ (k ≤ w.Duration.toNat + 1) := by omega
    have h4 : ¬ (k = w.Duration.toNat + 2) := by omega
    rw [hrun k]
    simp [h0, h3, h4, MaintenanceWindow.getGaugeValue, MaintenanceWindow.setActive,
      MaintenanceWindow.setInactive]
  · intro k
    rw [hrun k]
    by_cases h0 : k = 0
    · left
      simpa [h0, MaintenanceWindow.getGaugeValue] using hg
    · by_cases h3 : k ≤ w.Duration.toNat + 1
      · right
        simp [h0, h3, MaintenanceWindow.getGaugeValue, MaintenanceWindow.setActive]
      · by_cases h4 : k = w.Duration.toNat + 2
        · right
          simp [h0, h3, h4, MaintenanceWindow.getGaugeValue, MaintenanceWindow.setActive]
        · left
          simp [h0, h3, h4, MaintenanceWindow.getGaugeValue, MaintenanceWindow.setActive,
            MaintenanceWindow.setInactive]

/-- An instance of the theorem above: a window of three nanoseconds, read before `Task`, after
five steps and after six. -/
theorem C7_gauge_is_one_exactly_while_task_waits_witness :
    NewMaintenanceWindow goEnv RangeOrder.stored ⟨[], []⟩ "0 2 * * *" "3ns" "backup"
        (some ⟨[], List.nodup_nil⟩)
      = .returned ⟨some backupWindow, none, backupWindow.Labels,
          ⟨["maintenance_active\x7bname=\"backup\"\x7d"], [⟨"0 2 * * *"⟩]⟩⟩ ∧
    (Task.run backupWindow 0).m.getGaugeValue.1 = 0 ∧
    (Task.run backupWindow 5).m.getGaugeValue.1 = 1 ∧
    (Task.run backupWindow 6).m.getGaugeValue.1 = 0 ∧
    (Task.run backupWindow 6).pc = .finished :=
  have key := C7_gauge_is_one_exactly_while_task_waits goEnv RangeOrder.stored ⟨[], []⟩
    "0 2 * * *" "3ns" "backup" (some ⟨[], List.nodup_nil⟩) _ backupWindow rfl rfl rfl
  ⟨rfl, key.1, (key.2.1 5 (by decide) (by decide)).1, (key.2.2.1 6 (by decide)).1,
    (key.2.2.1 6 (by decide)).2⟩

/-- C10. For every window state `m`, each of `setActive`, `setInactive`, `getGaugeValue`,
`String` and every step of `Task` leaves `Name`, `Labels`, `CronExpression`, `Duration`,
`Job` and `Gauge` as they were: `gaugeValue` is the only field that any of them changes. -/
theorem C10_methods_change_only_gaugeValue (rng : RangeOrder) (m : MaintenanceWindow) :
    sameButGaugeValue m.setActive m ∧
    sameButGaugeValue m.setInactive m ∧
    sameButGaugeValue m.getGaugeValue.2 m ∧
    sameButGaugeValue (m.String rng).2 m ∧
    ∀ k, sameButGaugeValue (Task.run m k).m m := by
  refine ⟨?_, ?_, ?_, ?_, ?_⟩
  · exact ⟨rfl, rfl, rfl, rfl, rfl, rfl⟩
  · exact ⟨rfl, rfl, rfl, rfl, rfl, rfl⟩
  · exact ⟨rfl, rfl, rfl, rfl, rfl, rfl⟩
  · exact ⟨rfl, rfl, rfl, rfl, rfl, rfl⟩
  · intro k
    rw [Task.run_eq m k]
    split_ifs
    · exact ⟨rfl, rfl, rfl, rfl, rfl, rfl⟩
    · exact ⟨rfl, rfl, rfl, rfl, rfl, rfl⟩
    · exact ⟨rfl, rfl, rfl, rfl, rfl, rfl⟩
    · cases m.Job <;> exact ⟨rfl, rfl, rfl, rfl, rfl, rfl⟩

/-! ## Startup -/

/-- The construction loop appends one element per configured window, whatever the call
returned. -/
theorem constructionLoop_length (env : Env) (rng : RangeOrder)
    (windows : List MaintenanceWindowConfig) :
    ∀ (world : World) (acc : List (Option MaintenanceWindow))
      (res : List (Option MaintenanceWindow) × World),
      constructionLoop env rng windows world acc = .returned res →
      res.1.length = acc.length + windows.length := by
  induction windows with
  | nil =>
    intro world acc res h
    simp only [constructionLoop] at h
    cases h
    rfl
  | cons w rest ih =>
    intro world acc res h
    simp only [constructionLoop] at h
    cases hn : NewMaintenanceWindow env rng world w.Cron w.Duration w.Name w.Labels with
    | panicked msg => simp [hn] at h
    | returned r =>
      simp only [hn] at h
      rw [ih _ _ _ h]
      simp only [List.length_append, List.length_cons, List.length_nil]
      omega

/-- C5, the code at the failing input. With the two configured windows `twoWindows`, the
second of which has the duration `notaduration`, the construction loop ends with a list of
two elements: the window built for the first entry, and for the second entry, whose
construction failed, the nil pointer that `NewMaintenanceWindow` returned. -/
theorem C5_failed_window_is_appended_as_nil :
    ∃ w world, constructionLoop goEnv RangeOrder.stored twoWindows ⟨[], []⟩ []
        = .returned ([some w, none], world) ∧
      w.Name = "backup" ∧
      world.jobs = [⟨"0 2 * * *"⟩] :=
  ⟨_, _, rfl, rfl, rfl⟩

/-- C6, the code at the failing inputs. With the two configured windows `twoWindows`, the
second of which has the duration `notaduration`, the startup sequence of `main` does not
reach the point where it serves metrics: the reporting loop evaluates `m.Name` on the nil
pointer stored for the second window and panics. With a configured window that has no
labels the construction loop itself panics, on the store into the nil map. -/
theorem C6_startup_panics_after_failed_construction :
    mainStartup goEnv RangeOrder.stored twoWindows []
      = .panicked "invalid memory address or nil pointer dereference" ∧
    mainStartup goEnv RangeOrder.stored [⟨"backup", "30m", none, "0 2 * * *"⟩] []
      = .panicked "assignment to entry in nil map" :=
  ⟨rfl, rfl⟩

end MaintenanceExporter
